import Mathlib

/-!
Shallow embedding of the `unlike` command-line tool (Go, package main,
version 0.1.2, `src/main.go`).

Modelling conventions:
* Go `time.Duration` is nanoseconds, modelled as `Nat`.
* Go `time.Time` values (tweet creation instants, the ambient clock) are
  nanoseconds since an arbitrary epoch, modelled as `Int`.
  `time.Now().AddDate(0, 0, -days)` is modelled as `now - days * nsDay`
  with a single ambient `now` for the whole run (calendar irregularities
  are irrelevant to the claims, which concern only the comparison).
* Go errors are modelled by `GoErr`: either a `net.Error` whose
  `Timeout()` reports true, or any other error; both carry the message
  string that `err.Error()` would return.
* Network interactions are modelled by a script: the list of responses
  the API returns, consumed one per call, in order.  A run whose script
  runs out before the Go loop finishes is undetermined and yields `none`.
* `log` output is not modelled as text; instead each run records the
  structured facts the log lines report (per-call outcomes, progress
  counters), so that the logging claims are statable.
-/

namespace Main

/-- Go `time.Duration`, in nanoseconds. -/
abbrev Duration := Nat

def nsSecond : Duration := 1000000000

def nsMinute : Duration := 60 * nsSecond

/-- One day of `time.AddDate(0, 0, -1)`, in nanoseconds (no calendar shifts). -/
def nsDay : Int := 86400 * 1000000000

/-- `DefaultDays = 30`. -/
def DefaultDays : Int := 30

/-- `DefaultTimeout = 30 * time.Second`. -/
def DefaultTimeout : Duration := 30 * nsSecond

/-- `RateLimitSleep = 15 * time.Minute`. -/
def RateLimitSleep : Duration := 15 * nsMinute

/-- `Version = "0.1.2"`. -/
def Version : String := "0.1.2"

/-- `ExitSuccess = 0`. -/
def ExitSuccess : Nat := 0

/-- `ExitUsage = 2`. -/
def ExitUsage : Nat := 2

/-- A Go error value as `trySleepOnError` inspects it: whether it is a
`net.Error` with `Timeout() == true`, and its `Error()` message. -/
inductive GoErr where
  | netTimeout (msg : String)
  | other (msg : String)
deriving DecidableEq

/-- The `err1, ok := err.(net.Error); ok && err1.Timeout()` test. -/
def GoErr.isNetTimeout : GoErr → Bool
  | .netTimeout _ => true
  | .other _ => false

/-- The `err.Error()` message. -/
def GoErr.msg : GoErr → String
  | .netTimeout m => m
  | .other m => m

/-- `strings.Contains(hay, needle)` on character lists. -/
def goContainsAux (hay needle : List Char) : Bool :=
  match hay with
  | [] => needle.isEmpty
  | _ :: t => needle.isPrefixOf hay || goContainsAux t needle

/-- `strings.Contains`. -/
def goContains (hay needle : String) : Bool :=
  goContainsAux hay.toList needle.toList

/--
`trySleepOnError(err)`: classifies the error and performs the retry sleep.
Returns the Go boolean `rv` (retry the same operation?) together with the
duration slept, `none` when no sleep happened:

    rv := false
    if err1, ok := err.(net.Error); ok && err1.Timeout() {
        time.Sleep(DefaultTimeout); rv = true
    } else if strings.Contains(err.Error(), "httpStatusCode=429") {
        time.Sleep(RateLimitSleep); rv = true
    }
    return rv
-/
def trySleepOnError (err : GoErr) : Bool × Option Duration :=
  if err.isNetTimeout then (true, some DefaultTimeout)
  else if goContains err.msg "httpStatusCode=429" then (true, some RateLimitSleep)
  else (false, none)

/-- The `if opts.days < 0 { opts.days = DefaultDays }` normalisation in `getOpts`. -/
def normalizeDays (d : Int) : Int :=
  if d < 0 then DefaultDays else d

/-- The inputs `getOpts` reads: the parsed flags and the two environment
variables (empty string models an unset variable, as `os.Getenv` returns). -/
structure OptsInput where
  isVersion : Bool
  username : String
  days : Int
  timeout : Duration
  oauthToken : String
  oauthTokenSecret : String
deriving DecidableEq

/-- The `Opts` struct as returned by `getOpts`. -/
structure Opts where
  username : String
  days : Int
  timeout : Duration
  oauthToken : String
  oauthTokenSecret : String
deriving DecidableEq

/-- Result of `getOpts`: either `os.Exit(code)` after printing the given
lines to stdout, or the options record. -/
inductive GetOptsResult where
  | exited (code : Nat) (stdout : List String)
  | ok (o : Opts)
deriving DecidableEq

/--
`getOpts`, after flag parsing: the `-V` check runs first (print version,
exit 0); then the credential check (exit 2 on a missing token or secret);
then the environment variables are cleared (no observable effect here) and
negative `days` fall back to the default.
-/
def getOpts (inp : OptsInput) : GetOptsResult :=
  if inp.isVersion then
    .exited ExitSuccess [Version]
  else if inp.oauthToken = "" ∨ inp.oauthTokenSecret = "" then
    .exited ExitUsage ["oauth token and oauth token secret are required"]
  else
    .ok ⟨inp.username, normalizeDays inp.days, inp.timeout,
         inp.oauthToken, inp.oauthTokenSecret⟩

/-- One liked tweet as the collector sees it: `gotwi.TimeValue(tweet.CreatedAt)`
and `gotwi.StringValue(tweet.ID)`. -/
structure Tweet where
  createdAt : Int
  id : String
deriving DecidableEq

/-- One page of `GetLikedTweets`: `res.Data` and
`gotwi.StringValue(res.Meta.NextToken)`. -/
structure Page where
  data : List Tweet
  nextToken : String
deriving DecidableEq

/-- The cutoff `point := time.Now().AddDate(0, 0, -days)`. -/
def cutoff (now days : Int) : Int :=
  now - days * nsDay

/--
The inner per-page loop of `CollectLikedTweetsID`:

    for _, tweet := range res.Data {
        if gotwi.TimeValue(tweet.CreatedAt).After(point) { continue }
        tweetID := gotwi.StringValue(tweet.ID)
        if tweetID == "" { panic("tweet id is empty") }
        ids = append(ids, tweetID)
    }

`none` models the panic; `some l` is the list of IDs appended by the page.
-/
def collectPageIDs (data : List Tweet) (point : Int) : Option (List String) :=
  match data with
  | [] => some []
  | t :: ts =>
    if t.createdAt > point then collectPageIDs ts point
    else if t.id = "" then none
    else (collectPageIDs ts point).map (t.id :: ·)

/-- How a run of `CollectLikedTweetsID` can end. -/
inductive CollectOutcome where
  | ok (ids : List String)
  | fatal (e : GoErr)
  | panicEmptyID
deriving DecidableEq

/-- One recorded fetch: the pagination cursor passed to `GetLikedTweets`
and the response the API gave. -/
abbrev Fetch := String × Except GoErr Page

/--
The `for { ... }` loop of `CollectLikedTweetsID`, run against a script of
responses (one consumed per fetch).  Alongside the outcome it records the
trace of fetches actually issued.  `none` means the script was exhausted
before the loop finished.
-/
def collectLoop (script : List (Except GoErr Page)) (token : String)
    (acc : List String) (now days : Int) : Option (CollectOutcome × List Fetch) :=
  match script with
  | [] => none
  | r :: rest =>
    match r with
    | .error e =>
      if (trySleepOnError e).1 then
        (collectLoop rest token acc now days).map
          (fun p => (p.1, (token, r) :: p.2))
      else
        some (.fatal e, [(token, r)])
    | .ok page =>
      match collectPageIDs page.data (cutoff now days) with
      | none => some (.panicEmptyID, [(token, r)])
      | some newIds =>
        if page.nextToken = "" then
          some (.ok (acc ++ newIds), [(token, r)])
        else
          (collectLoop rest page.nextToken (acc ++ newIds) now days).map
            (fun p => (p.1, (token, r) :: p.2))

/-- `CollectLikedTweetsID`: cursor starts empty, accumulator starts empty. -/
def CollectLikedTweetsID (script : List (Except GoErr Page)) (now days : Int) :
    Option (CollectOutcome × List Fetch) :=
  collectLoop script "" [] now days

/-- The pages a successfully completing run consumes from the script:
retryable errors are skipped, and consumption stops at the first page whose
continuation token is empty. -/
def consumedPages (script : List (Except GoErr Page)) : Option (List Page) :=
  match script with
  | [] => none
  | .error e :: rest =>
    if (trySleepOnError e).1 then consumedPages rest else none
  | .ok p :: rest =>
    if p.nextToken = "" then some [p]
    else (consumedPages rest).map (p :: ·)

/-- Modelled from the spec wording for C3: the IDs a sequence of pages
should contribute — every item at or before the cutoff, in page order then
intra-page listing order. -/
def includedIDs (pages : List Page) (point : Int) : List String :=
  pages.flatMap fun p => (p.data.filter fun t => decide (t.createdAt ≤ point)).map Tweet.id

end Main

namespace Main

theorem collectPageIDs_eq_some {data : List Tweet} {point : Int} {l : List String}
    (h : collectPageIDs data point = some l) :
    l = (data.filter fun t => decide (t.createdAt ≤ point)).map Tweet.id := by
  induction data generalizing l with
  | nil => simp [collectPageIDs] at h; simp [h.symm]
  | cons t ts ih =>
    by_cases hgt : t.createdAt > point
    · have hle : ¬ (t.createdAt ≤ point) := not_le.mpr hgt
      simp only [collectPageIDs, if_pos hgt] at h
      simpa [List.filter_cons, hle] using ih h
    · have hle : t.createdAt ≤ point := not_lt.mp hgt
      simp only [collectPageIDs, if_neg hgt] at h
      by_cases hid : t.id = ""
      · simp [hid] at h
      · simp only [if_neg hid, Option.map_eq_some'] at h
        obtain ⟨l0, hl0, hcons⟩ := h
        subst hcons
        simp [List.filter_cons, hle, ih hl0]

theorem collectPageIDs_eq_none {data : List Tweet} {point : Int} :
    collectPageIDs data point = none ↔
      ∃ t ∈ data, t.createdAt ≤ point ∧ t.id = "" := by
  induction data with
  | nil => simp [collectPageIDs]
  | cons t ts ih =>
    by_cases hgt : t.createdAt > point
    · have hle : ¬ (t.createdAt ≤ point) := not_le.mpr hgt
      simp [collectPageIDs, if_pos hgt, ih, hle]
    · have hle : t.createdAt ≤ point := not_lt.mp hgt
      by_cases hid : t.id = ""
      · simp [collectPageIDs, if_neg hgt, hid, hle]
      · simp [collectPageIDs, if_neg hgt, hid, ih, hle, Option.map_eq_none']

theorem collectLoop_ok {script : List (Except GoErr Page)} {token : String}
    {acc ids : List String} {now days : Int} {fs : List Fetch}
    (h : collectLoop script token acc now days = some (.ok ids, fs)) :
    ∃ pages, consumedPages script = some pages ∧
      ids = acc ++ includedIDs pages (cutoff now days) := by
  induction script generalizing token acc ids fs with
  | nil => simp [collectLoop] at h
  | cons r rest ih =>
    match r with
    | .error e =>
      by_cases hr : (trySleepOnError e).1
      · simp only [collectLoop, if_pos hr, Option.map_eq_some'] at h
        obtain ⟨p, hp, hpe⟩ := h
        have hout : p.1 = CollectOutcome.ok ids := congrArg Prod.fst hpe
        obtain ⟨o, f⟩ := p
        simp only at hout
        subst hout
        obtain ⟨pages, h1, h2⟩ := ih hp
        exact ⟨pages, by simp [consumedPages, hr, h1], h2⟩
      · simp only [collectLoop, if_neg hr, Option.some_inj, Prod.mk.injEq] at h
        exact absurd h.1 (by simp)
    | .ok page =>
      rcases hpg : collectPageIDs page.data (cutoff now days) with _ | newIds
      · simp only [collectLoop, hpg, Option.some_inj, Prod.mk.injEq] at h
        exact absurd h.1 (by simp)
      · by_cases htok : page.nextToken = ""
        · simp only [collectLoop, hpg, if_pos htok, Option.some_inj,
            Prod.mk.injEq] at h
          have hout : CollectOutcome.ok (acc ++ newIds) = CollectOutcome.ok ids := h.1
          refine ⟨[page], by simp [consumedPages, htok], ?_⟩
          have : acc ++ newIds = ids := by
            injection hout
          rw [← this, collectPageIDs_eq_some hpg]
          simp [includedIDs]
        · simp only [collectLoop, hpg, if_neg htok, Option.map_eq_some'] at h
          obtain ⟨p, hp, hpe⟩ := h
          have hout : p.1 = CollectOutcome.ok ids := congrArg Prod.fst hpe
          obtain ⟨o, f⟩ := p
          simp only at hout
          subst hout
          obtain ⟨pages, h1, h2⟩ := ih hp
          refine ⟨page :: pages, by simp [consumedPages, htok, h1], ?_⟩
          rw [h2, collectPageIDs_eq_some hpg]
          simp [includedIDs]

/-- The payload of a successful delete-like API response:
`res.Data.Liked`, the post-operation liked state reported by the service. -/
structure LikedResp where
  liked : Bool
deriving DecidableEq

/--
`Unlike(ctx, userID, tweetID)`, applied to the response the API gives:

    res, err := tweets.TweetLikesDelete(...)
    if err != nil { return false, err }
    return !res.Data.Liked, nil
-/
def Unlike (resp : Except GoErr LikedResp) : Except GoErr Bool :=
  match resp with
  | .error e => .error e
  | .ok r => .ok (!r.liked)

/-- One delete-like call as `DeleteLikes` issues it: the index `i`, the ID
`ids[i]` passed to `Unlike`, and the value `Unlike` returned. -/
structure Call where
  idx : Nat
  id : String
  res : Except GoErr Bool

/-- How `DeleteLikes` disposes of one call, following its if/else-if/else
ladder on `(res, err)`: retried transient error, logged per-item fatal
error, logged soft failure (the tweet is still liked), or counted success. -/
inductive CallKind where
  | retried
  | fatalLogged
  | softLogged
  | success
deriving DecidableEq

/-- The branch of the `DeleteLikes` loop body a call takes. -/
def Call.kind (c : Call) : CallKind :=
  match c.res with
  | .error e => if (trySleepOnError e).1 then .retried else .fatalLogged
  | .ok b => if b then .success else .softLogged

/-- Whether the call hit the `continue` branch (transient error). -/
def Call.isRetry (c : Call) : Bool :=
  c.kind = CallKind.retried

/-- Whether the call incremented the success counter `j`. -/
def Call.isSuccess (c : Call) : Bool :=
  c.kind = CallKind.success

/-- One progress log line `"[%d] %d/%d" j i len(ids)`. -/
structure Progress where
  succ : Nat
  processed : Nat
  total : Nat
deriving DecidableEq

/-- What a finished `DeleteLikes` run produced: the chronological trace of
delete-like calls, the chronological progress log lines, and the Go return
value of the function. -/
structure DelOut where
  calls : List Call
  progress : List Progress
  retErr : Option GoErr

/--
The `for i < len(ids)` loop of `DeleteLikes`, run against a script of
delete-like API responses (one consumed per `Unlike` call):

    i := 0; j := 0
    for i < len(ids) {
        id := ids[i]
        res, err := t.Unlike(ctx, userID, id)
        if err != nil {
            if trySleepOnError(err) { continue }
            log.Printf("failed to unlike tweet ...")
        } else if !res {
            log.Println("unlike failed: ", id)
        } else { j++ }
        i++
        if i%100 == 0 { log.Printf("[%d] %d/%d", j, i, len(ids)) }
    }
    return nil

`none` means the script was exhausted before the loop finished.
-/
def deleteLoop (ids : List String) :
    List (Except GoErr LikedResp) → Nat → Nat → Option DelOut
  | [], i, _ =>
    if i < ids.length then none else some ⟨[], [], none⟩
  | r :: rest, i, j =>
    if h : i < ids.length then
      if (Call.mk i (ids[i]) (Unlike r)).isRetry then
        (deleteLoop ids rest i j).map fun o =>
          { o with calls := Call.mk i (ids[i]) (Unlike r) :: o.calls }
      else
        (deleteLoop ids rest (i + 1)
            (if (Call.mk i (ids[i]) (Unlike r)).isSuccess then j + 1 else j)).map
          fun o =>
            { o with
              calls := Call.mk i (ids[i]) (Unlike r) :: o.calls,
              progress :=
                if (i + 1) % 100 = 0 then
                  Progress.mk
                    (if (Call.mk i (ids[i]) (Unlike r)).isSuccess then j + 1
                     else j)
                    (i + 1) ids.length :: o.progress
                else o.progress }
    else some ⟨[], [], none⟩

/-- `DeleteLikes`: both counters start at zero. -/
def DeleteLikes (ids : List String) (script : List (Except GoErr LikedResp)) :
    Option DelOut :=
  deleteLoop ids script 0 0

/-- How the index of one call determines the index of the next call: a
transient error repeats the index, anything else advances it by one. -/
def callStep (a b : Call) : Prop :=
  b.idx = if a.isRetry then a.idx else a.idx + 1

/-- The ordering discipline of a finished `DeleteLikes` run: every call
names the ID at its index; the first call is at index 0; consecutive calls
obey `callStep` (retry the same index after a transient error, advance by
one otherwise); and every index receives a non-retried (settling) call, so
no item halts the processing of later ones. -/
def DeleterOrderSpec (ids : List String) (out : DelOut) : Prop :=
  (∀ c ∈ out.calls, ∃ h : c.idx < ids.length, c.id = ids[c.idx]) ∧
  (∀ c, out.calls.head? = some c → c.idx = 0) ∧
  List.Chain' callStep out.calls ∧
  (∀ k, k < ids.length → ∃ c ∈ out.calls, c.idx = k ∧ c.isRetry = false)

/-- The 1-based positions among `n` processed items that are multiples of
100 — the points at which `DeleteLikes` emits a progress line. -/
def multiplesOf100 (n : Nat) : List Nat :=
  (List.range' 1 n).filter fun m => m % 100 = 0

/-- The progress-logging discipline of a finished `DeleteLikes` run: lines
appear exactly at the 1-based indices that are multiples of 100, and each
line reports the total item count together with the number of successful
(`liked` cleared) calls among the items processed so far. -/
def DeleterProgressSpec (ids : List String) (out : DelOut) : Prop :=
  out.progress.map Progress.processed = multiplesOf100 ids.length ∧
  ∀ p ∈ out.progress, p.total = ids.length ∧
    p.succ = out.calls.countP fun c => decide (c.idx < p.processed) && c.isSuccess

/-- How the cursor of one fetch determines the cursor of the next fetch:
after a retryable error the same cursor is reused; after a successful page
the page's (necessarily nonempty) continuation token is adopted. -/
def fetchStep (a b : Fetch) : Prop :=
  match a.2 with
  | .error e => (trySleepOnError e).1 = true ∧ b.1 = a.1
  | .ok p => p.nextToken ≠ "" ∧ b.1 = p.nextToken

/-- The pagination discipline of a finished collection run: the first fetch
uses the empty cursor; consecutive fetches obey `fetchStep` (transient
retry keeps the cursor, success adopts the continuation token); a
successful page that is not the last fetch has a nonempty token (so an
empty token stops the loop); a fatal outcome means the last fetch failed
non-retryably with that very error; a normal outcome means the last fetch
returned a page with an empty continuation token. -/
def CollectorCursorSpec (out : CollectOutcome) (fs : List Fetch) : Prop :=
  (∀ f ∈ fs.head?, f.1 = "") ∧
  List.Chain' fetchStep fs ∧
  (∀ m c p, fs[m]? = some (c, Except.ok p) → m + 1 < fs.length →
    p.nextToken ≠ "") ∧
  (∀ e, out = .fatal e →
    ∃ c, fs.getLast? = some (c, Except.error e) ∧ (trySleepOnError e).1 = false) ∧
  (∀ ids, out = .ok ids →
    ∃ c p, fs.getLast? = some (c, Except.ok p) ∧ p.nextToken = "")

theorem chain_nonfinal_ok {fs : List Fetch} (hc : List.Chain' fetchStep fs)
    (m : Nat) (c : String) (p : Page)
    (hm : fs[m]? = some (c, Except.ok p)) (hlt : m + 1 < fs.length) :
    p.nextToken ≠ "" := by
  have hstep := List.chain'_iff_get.mp hc m (by omega)
  have hmlt : m < fs.length := Nat.lt_of_succ_lt hlt
  have hget : fs.get ⟨m, hmlt⟩ = (c, Except.ok p) := by
    have := List.getElem?_eq_some.mp hm
    obtain ⟨h1, h2⟩ := this
    simpa [List.get_eq_getElem] using h2
  rw [hget] at hstep
  exact hstep.1

theorem collectLoop_fetches {script : List (Except GoErr Page)} {token : String}
    {acc : List String} {now days : Int} {out : CollectOutcome} {fs : List Fetch}
    (h : collectLoop script token acc now days = some (out, fs)) :
    fs ≠ [] ∧ (∀ f ∈ fs.head?, f.1 = token) ∧ List.Chain' fetchStep fs ∧
    (∀ e, out = .fatal e →
      ∃ c, fs.getLast? = some (c, Except.error e) ∧ (trySleepOnError e).1 = false) ∧
    (∀ ids, out = .ok ids →
      ∃ c p, fs.getLast? = some (c, Except.ok p) ∧ p.nextToken = "") := by
  induction script generalizing token acc out fs with
  | nil => simp [collectLoop] at h
  | cons r rest ih =>
    match r with
    | .error e =>
      by_cases hr : (trySleepOnError e).1
      · simp only [collectLoop, if_pos hr, Option.map_eq_some'] at h
        obtain ⟨⟨o, f⟩, hp, hpe⟩ := h
        have hout : o = out := congrArg Prod.fst hpe
        have hfs : (token, Except.error e) :: f = fs := congrArg Prod.snd hpe
        subst hout
        subst hfs
        obtain ⟨hne, hhead, hchain, hfatal, hok⟩ := ih hp
        rcases f with _ | ⟨b, f'⟩
        · exact absurd rfl hne
        refine ⟨by simp, by simp, ?_, ?_, ?_⟩
        · refine List.chain'_cons'.mpr ⟨?_, hchain⟩
          intro y hy
          simp only [List.head?_cons, Option.mem_def, Option.some_inj] at hy
          subst hy
          exact ⟨hr, hhead b (by simp)⟩
        · intro e' he'
          obtain ⟨c, hc1, hc2⟩ := hfatal e' he'
          exact ⟨c, by simpa [List.getLast?_cons_cons] using hc1, hc2⟩
        · intro ids hids
          obtain ⟨c, p, hc1, hc2⟩ := hok ids hids
          exact ⟨c, p, by simpa [List.getLast?_cons_cons] using hc1, hc2⟩
      · simp only [collectLoop, if_neg hr, Option.some_inj, Prod.mk.injEq] at h
        obtain ⟨hout, hfs⟩ := h
        subst hfs
        refine ⟨by simp, by simp, by simp, ?_, ?_⟩
        · intro e' he'
          rw [← hout] at he'
          have : e = e' := by
            cases he'
            rfl
          subst this
          exact ⟨token, by simp, by simpa using hr⟩
        · intro ids hids
          rw [← hout] at hids
          cases hids
    | .ok page =>
      rcases hpg : collectPageIDs page.data (cutoff now days) with _ | newIds
      · simp only [collectLoop, hpg, Option.some_inj, Prod.mk.injEq] at h
        obtain ⟨hout, hfs⟩ := h
        subst hfs
        refine ⟨by simp, by simp, by simp, ?_, ?_⟩
        · intro e' he'
          rw [← hout] at he'
          cases he'
        · intro ids hids
          rw [← hout] at hids
          cases hids
      · by_cases htok : page.nextToken = ""
        · simp only [collectLoop, hpg, if_pos htok, Option.some_inj,
            Prod.mk.injEq] at h
          obtain ⟨hout, hfs⟩ := h
          subst hfs
          refine ⟨by simp, by simp, by simp, ?_, ?_⟩
          · intro e' he'
            rw [← hout] at he'
            cases he'
          · intro ids hids
            exact ⟨token, page, by simp, htok⟩
        · simp only [collectLoop, hpg, if_neg htok, Option.map_eq_some'] at h
          obtain ⟨⟨o, f⟩, hp, hpe⟩ := h
          have hout : o = out := congrArg Prod.fst hpe
          have hfs : (token, Except.ok page) :: f = fs := congrArg Prod.snd hpe
          subst hout
          subst hfs
          obtain ⟨hne, hhead, hchain, hfatal, hok⟩ := ih hp
          rcases f with _ | ⟨b, f'⟩
          · exact absurd rfl hne
          refine ⟨by simp, by simp, ?_, ?_, ?_⟩
          · refine List.chain'_cons'.mpr ⟨?_, hchain⟩
            intro y hy
            simp only [List.head?_cons, Option.mem_def, Option.some_inj] at hy
            subst hy
            exact ⟨htok, hhead b (by simp)⟩
          · intro e' he'
            obtain ⟨c, hc1, hc2⟩ := hfatal e' he'
            exact ⟨c, by simpa [List.getLast?_cons_cons] using hc1, hc2⟩
          · intro ids hids
            obtain ⟨c, p, hc1, hc2⟩ := hok ids hids
            exact ⟨c, p, by simpa [List.getLast?_cons_cons] using hc1, hc2⟩

theorem collectLoop_panic {script : List (Except GoErr Page)} {token : String}
    {acc : List String} {now days : Int} {out : CollectOutcome} {fs : List Fetch}
    {m : Nat} {c : String} {page : Page}
    (h : collectLoop script token acc now days = some (out, fs))
    (hm : fs[m]? = some (c, Except.ok page))
    (hbad : ∃ t ∈ page.data, t.createdAt ≤ cutoff now days ∧ t.id = "") :
    out = CollectOutcome.panicEmptyID ∧ m + 1 = fs.length := by
  induction script generalizing token acc out fs m with
  | nil => simp [collectLoop] at h
  | cons r rest ih =>
    match r with
    | .error e =>
      by_cases hr : (trySleepOnError e).1
      · simp only [collectLoop, if_pos hr, Option.map_eq_some'] at h
        obtain ⟨⟨o, f⟩, hp, hpe⟩ := h
        have hout : o = out := congrArg Prod.fst hpe
        have hfs : (token, Except.error e) :: f = fs := congrArg Prod.snd hpe
        subst hout
        subst hfs
        match m with
        | 0 => simp at hm
        | m' + 1 =>
          simp only [List.getElem?_cons_succ] at hm
          obtain ⟨h1, h2⟩ := ih hp hm
          exact ⟨h1, by simp [← h2]⟩
      · simp only [collectLoop, if_neg hr, Option.some_inj, Prod.mk.injEq] at h
        obtain ⟨hout, hfs⟩ := h
        subst hfs
        match m with
        | 0 => simp at hm
        | m' + 1 => simp at hm
    | .ok page0 =>
      rcases hpg : collectPageIDs page0.data (cutoff now days) with _ | newIds
      · simp only [collectLoop, hpg, Option.some_inj, Prod.mk.injEq] at h
        obtain ⟨hout, hfs⟩ := h
        subst hfs
        match m with
        | 0 => exact ⟨hout.symm, by simp⟩
        | m' + 1 => simp at hm
      · have hnotbad : ¬ ∃ t ∈ page0.data, t.createdAt ≤ cutoff now days ∧ t.id = "" := by
          intro hc
          rw [← collectPageIDs_eq_none] at hc
          rw [hc] at hpg
          cases hpg
        by_cases htok : page0.nextToken = ""
        · simp only [collectLoop, hpg, if_pos htok, Option.some_inj,
            Prod.mk.injEq] at h
          obtain ⟨hout, hfs⟩ := h
          subst hfs
          match m with
          | 0 =>
            simp only [List.getElem?_cons_zero, Option.some_inj, Prod.mk.injEq] at hm
            have : page0 = page := by
              have := hm.2
              cases this
              rfl
            subst this
            exact absurd hbad hnotbad
          | m' + 1 => simp at hm
        · simp only [collectLoop, hpg, if_neg htok, Option.map_eq_some'] at h
          obtain ⟨⟨o, f⟩, hp, hpe⟩ := h
          have hout : o = out := congrArg Prod.fst hpe
          have hfs : (token, Except.ok page0) :: f = fs := congrArg Prod.snd hpe
          subst hout
          subst hfs
          match m with
          | 0 =>
            simp only [List.getElem?_cons_zero, Option.some_inj, Prod.mk.injEq] at hm
            have : page0 = page := by
              have := hm.2
              cases this
              rfl
            subst this
            exact absurd hbad hnotbad
          | m' + 1 =>
            simp only [List.getElem?_cons_succ] at hm
            obtain ⟨h1, h2⟩ := ih hp hm
            exact ⟨h1, by simp [← h2]⟩

theorem deleteLoop_nil {ids : List String} {i j : Nat} :
    deleteLoop ids [] i j =
      if i < ids.length then none else some ⟨[], [], none⟩ :=
  rfl

theorem deleteLoop_cons_done {ids : List String}
    {r : Except GoErr LikedResp} {rest : List (Except GoErr LikedResp)}
    {i j : Nat} (hlt : ¬ i < ids.length) :
    deleteLoop ids (r :: rest) i j = some ⟨[], [], none⟩ := by
  simp [deleteLoop, hlt]

theorem deleteLoop_cons_retry {ids : List String}
    {r : Except GoErr LikedResp} {rest : List (Except GoErr LikedResp)}
    {i j : Nat} (hlt : i < ids.length)
    (hret : (Call.mk i (ids[i]) (Unlike r)).isRetry = true) :
    deleteLoop ids (r :: rest) i j =
      (deleteLoop ids rest i j).map fun o =>
        { o with calls := Call.mk i (ids[i]) (Unlike r) :: o.calls } := by
  simp [deleteLoop, hlt, hret]

theorem deleteLoop_cons_advance {ids : List String}
    {r : Except GoErr LikedResp} {rest : List (Except GoErr LikedResp)}
    {i j : Nat} (hlt : i < ids.length)
    (hret : (Call.mk i (ids[i]) (Unlike r)).isRetry = false) :
    deleteLoop ids (r :: rest) i j =
      (deleteLoop ids rest (i + 1)
          (if (Call.mk i (ids[i]) (Unlike r)).isSuccess then j + 1 else j)).map
        fun o =>
          { o with
            calls := Call.mk i (ids[i]) (Unlike r) :: o.calls,
            progress :=
              if (i + 1) % 100 = 0 then
                Progress.mk
                  (if (Call.mk i (ids[i]) (Unlike r)).isSuccess then j + 1
                   else j)
                  (i + 1) ids.length :: o.progress
              else o.progress } := by
  simp [deleteLoop, hlt, hret]

theorem isSuccess_eq_false_of_isRetry {c : Call} (h : c.isRetry = true) :
    c.isSuccess = false := by
  simp only [Call.isRetry, decide_eq_true_eq] at h
  simp [Call.isSuccess, h]

theorem deleteLoop_calls {ids : List String}
    {script : List (Except GoErr LikedResp)} {i j : Nat} {out : DelOut}
    (h : deleteLoop ids script i j = some out) :
    ∀ c ∈ out.calls, i ≤ c.idx ∧
      ∃ hlt : c.idx < ids.length, c.id = ids[c.idx] := by
  induction script generalizing i j out with
  | nil =>
    rw [deleteLoop_nil] at h
    by_cases hlt : i < ids.length
    · rw [if_pos hlt] at h
      cases h
    · rw [if_neg hlt] at h
      obtain rfl := Option.some.inj h
      intro c hc
      simp at hc
  | cons r rest ih =>
    by_cases hlt : i < ids.length
    · rcases hret : (Call.mk i (ids[i]) (Unlike r)).isRetry with _ | _
      · rw [deleteLoop_cons_advance hlt hret, Option.map_eq_some'] at h
        obtain ⟨o, ho, rfl⟩ := h
        intro c hc
        simp only [List.mem_cons] at hc
        rcases hc with rfl | hc'
        · exact ⟨le_refl i, hlt, rfl⟩
        · obtain ⟨h1, h2⟩ := ih ho c hc'
          exact ⟨by omega, h2⟩
      · rw [deleteLoop_cons_retry hlt hret, Option.map_eq_some'] at h
        obtain ⟨o, ho, rfl⟩ := h
        intro c hc
        simp only [List.mem_cons] at hc
        rcases hc with rfl | hc'
        · exact ⟨le_refl i, hlt, rfl⟩
        · exact ih ho c hc'
    · rw [deleteLoop_cons_done hlt] at h
      obtain rfl := Option.some.inj h
      intro c hc
      simp at hc

theorem deleteLoop_chain {ids : List String}
    {script : List (Except GoErr LikedResp)} {i j : Nat} {out : DelOut}
    (h : deleteLoop ids script i j = some out) :
    List.Chain' callStep out.calls ∧
      ∀ c, out.calls.head? = some c → c.idx = i := by
  induction script generalizing i j out with
  | nil =>
    rw [deleteLoop_nil] at h
    by_cases hlt : i < ids.length
    · rw [if_pos hlt] at h
      cases h
    · rw [if_neg hlt] at h
      obtain rfl := Option.some.inj h
      exact ⟨by simp, by intro c hc; simp at hc⟩
  | cons r rest ih =>
    by_cases hlt : i < ids.length
    · rcases hret : (Call.mk i (ids[i]) (Unlike r)).isRetry with _ | _
      · rw [deleteLoop_cons_advance hlt hret, Option.map_eq_some'] at h
        obtain ⟨o, ho, rfl⟩ := h
        obtain ⟨hchain, hhead⟩ := ih ho
        constructor
        · refine List.chain'_cons'.mpr ⟨?_, hchain⟩
          intro y hy
          simp only [Option.mem_def] at hy
          have := hhead y hy
          simp [callStep, hret, this]
        · intro c hc
          simp only [List.head?_cons, Option.some_inj] at hc
          rw [← hc]
      · rw [deleteLoop_cons_retry hlt hret, Option.map_eq_some'] at h
        obtain ⟨o, ho, rfl⟩ := h
        obtain ⟨hchain, hhead⟩ := ih ho
        constructor
        · refine List.chain'_cons'.mpr ⟨?_, hchain⟩
          intro y hy
          simp only [Option.mem_def] at hy
          have := hhead y hy
          simp [callStep, hret, this]
        · intro c hc
          simp only [List.head?_cons, Option.some_inj] at hc
          rw [← hc]
    · rw [deleteLoop_cons_done hlt] at h
      obtain rfl := Option.some.inj h
      exact ⟨by simp, by intro c hc; simp at hc⟩

theorem deleteLoop_covers {ids : List String}
    {script : List (Except GoErr LikedResp)} {i j : Nat} {out : DelOut}
    (h : deleteLoop ids script i j = some out) :
    ∀ k, i ≤ k → k < ids.length →
      ∃ c ∈ out.calls, c.idx = k ∧ c.isRetry = false := by
  induction script generalizing i j out with
  | nil =>
    rw [deleteLoop_nil] at h
    by_cases hlt : i < ids.length
    · rw [if_pos hlt] at h
      cases h
    · rw [if_neg hlt] at h
      intro k hik hk
      omega
  | cons r rest ih =>
    by_cases hlt : i < ids.length
    · rcases hret : (Call.mk i (ids[i]) (Unlike r)).isRetry with _ | _
      · rw [deleteLoop_cons_advance hlt hret, Option.map_eq_some'] at h
        obtain ⟨o, ho, rfl⟩ := h
        intro k hik hk
        rcases Nat.eq_or_lt_of_le hik with rfl | hik'
        · exact ⟨Call.mk i (ids[i]) (Unlike r), by simp, rfl, hret⟩
        · obtain ⟨c, hc, hc1, hc2⟩ := ih ho k hik' hk
          exact ⟨c, by simp [hc], hc1, hc2⟩
      · rw [deleteLoop_cons_retry hlt hret, Option.map_eq_some'] at h
        obtain ⟨o, ho, rfl⟩ := h
        intro k hik hk
        obtain ⟨c, hc, hc1, hc2⟩ := ih ho k hik hk
        exact ⟨c, by simp [hc], hc1, hc2⟩
    · rw [deleteLoop_cons_done hlt] at h
      intro k hik hk
      omega

theorem deleteLoop_retErr {ids : List String}
    {script : List (Except GoErr LikedResp)} {i j : Nat} {out : DelOut}
    (h : deleteLoop ids script i j = some out) :
    out.retErr = none := by
  induction script generalizing i j out with
  | nil =>
    rw [deleteLoop_nil] at h
    by_cases hlt : i < ids.length
    · rw [if_pos hlt] at h
      cases h
    · rw [if_neg hlt] at h
      obtain rfl := Option.some.inj h
      rfl
  | cons r rest ih =>
    by_cases hlt : i < ids.length
    · rcases hret : (Call.mk i (ids[i]) (Unlike r)).isRetry with _ | _
      · rw [deleteLoop_cons_advance hlt hret, Option.map_eq_some'] at h
        obtain ⟨o, ho, rfl⟩ := h
        simpa using ih ho
      · rw [deleteLoop_cons_retry hlt hret, Option.map_eq_some'] at h
        obtain ⟨o, ho, rfl⟩ := h
        simpa using ih ho
    · rw [deleteLoop_cons_done hlt] at h
      obtain rfl := Option.some.inj h
      rfl

theorem deleteLoop_progress {ids : List String}
    {script : List (Except GoErr LikedResp)} {i j : Nat} {out : DelOut}
    (h : deleteLoop ids script i j = some out) :
    out.progress.map Progress.processed =
      (List.range' (i + 1) (ids.length - i)).filter (fun m => m % 100 = 0) ∧
    ∀ p ∈ out.progress, p.total = ids.length ∧
      p.succ = j + out.calls.countP
        fun c => decide (c.idx < p.processed) && c.isSuccess := by
  induction script generalizing i j out with
  | nil =>
    rw [deleteLoop_nil] at h
    by_cases hlt : i < ids.length
    · rw [if_pos hlt] at h
      cases h
    · rw [if_neg hlt] at h
      obtain rfl := Option.some.inj h
      have hz : ids.length - i = 0 := by omega
      refine ⟨by simp [hz], by intro p hp; simp at hp⟩
  | cons r rest ih =>
    by_cases hlt : i < ids.length
    · rcases hret : (Call.mk i (ids[i]) (Unlike r)).isRetry with _ | _
      · rw [deleteLoop_cons_advance hlt hret, Option.map_eq_some'] at h
        obtain ⟨o, ho, rfl⟩ := h
        obtain ⟨hmap, hsucc⟩ := ih ho
        have hidx := deleteLoop_calls ho
        have hrange : List.range' (i + 1) (ids.length - i) =
            (i + 1) :: List.range' (i + 2) (ids.length - (i + 1)) := by
          have hk : ids.length - i = (ids.length - (i + 1)) + 1 := by omega
          rw [hk, List.range'_succ]
        have hcount0 : o.calls.countP
            (fun c => decide (c.idx < i + 1) && c.isSuccess) = 0 := by
          rw [List.countP_eq_zero]
          intro c hc
          have := (hidx c hc).1
          simp [Nat.not_lt_of_le this]
        by_cases hmod : (i + 1) % 100 = 0
        · rw [if_pos hmod]
          constructor
          · simp only [List.map_cons, hmap, hrange, List.filter_cons]
            simp [hmod]
          · intro p hp
            simp only [List.mem_cons] at hp
            rcases hp with rfl | hp'
            · refine ⟨rfl, ?_⟩
              simp only [List.countP_cons, hcount0]
              have : decide (i < i + 1) = true := by simp
              rcases hsuc : (Call.mk i (ids[i]) (Unlike r)).isSuccess with _ | _
              · simp [hsuc]
              · simp [hsuc]
            · obtain ⟨hp1, hp2⟩ := hsucc p hp'
              refine ⟨hp1, ?_⟩
              have hple : i + 2 ≤ p.processed := by
                have : p.processed ∈ o.progress.map Progress.processed :=
                  List.mem_map_of_mem Progress.processed hp'
                rw [hmap] at this
                have := List.mem_filter.mp this
                exact (List.mem_range'_1.mp this.1).1
              rw [hp2, List.countP_cons]
              have hipd : decide (i < p.processed) = true := by
                simp only [decide_eq_true_eq]
                omega
              rcases hsuc : (Call.mk i (ids[i]) (Unlike r)).isSuccess with _ | _
              · simp [hsuc]
              · simp [hsuc, hipd]
                omega
        · rw [if_neg hmod]
          constructor
          · simp only [hmap, hrange, List.filter_cons]
            simp [hmod]
          · intro p hp
            obtain ⟨hp1, hp2⟩ := hsucc p hp
            refine ⟨hp1, ?_⟩
            have hple : i + 2 ≤ p.processed := by
              have : p.processed ∈ o.progress.map Progress.processed :=
                List.mem_map_of_mem Progress.processed hp
              rw [hmap] at this
              have := List.mem_filter.mp this
              exact (List.mem_range'_1.mp this.1).1
            rw [hp2, List.countP_cons]
            have hipd : decide (i < p.processed) = true := by
              simp only [decide_eq_true_eq]
              omega
            rcases hsuc : (Call.mk i (ids[i]) (Unlike r)).isSuccess with _ | _
            · simp [hsuc]
            · simp [hsuc, hipd]
              omega
      · rw [deleteLoop_cons_retry hlt hret, Option.map_eq_some'] at h
        obtain ⟨o, ho, rfl⟩ := h
        obtain ⟨hmap, hsucc⟩ := ih ho
        refine ⟨hmap, ?_⟩
        intro p hp
        obtain ⟨hp1, hp2⟩ := hsucc p hp
        refine ⟨hp1, ?_⟩
        rw [hp2, List.countP_cons]
        have := isSuccess_eq_false_of_isRetry hret
        simp [this]
    · rw [deleteLoop_cons_done hlt] at h
      obtain rfl := Option.some.inj h
      have hz : ids.length - i = 0 := by omega
      refine ⟨by simp [hz], by intro p hp; simp at hp⟩

end Main

/-- C6: a finished collection run fetches its first page with the empty
cursor, retries a transiently failing page with the same unchanged cursor,
adopts each successful page's continuation cursor, stops exactly when a
page returns an empty cursor, and on a fatal page error aborts with that
error as the final fetch. -/
theorem collector_cursor_discipline
    (script : List (Except Main.GoErr Main.Page)) (now days : Int)
    (out : Main.CollectOutcome) (fs : List Main.Fetch)
    (h : Main.CollectLikedTweetsID script now days = some (out, fs)) :
    Main.CollectorCursorSpec out fs := by
  obtain ⟨hne, hhead, hchain, hfatal, hok⟩ := Main.collectLoop_fetches h
  exact ⟨hhead, hchain,
    fun m c p hm hlt => Main.chain_nonfinal_ok hchain m c p hm hlt,
    hfatal, hok⟩

/-- Witness for C6: a timeout on the first fetch is retried with the same
empty cursor, then a final page with an empty continuation token ends the
run. -/
theorem collector_cursor_discipline_witness :
    Main.CollectorCursorSpec (Main.CollectOutcome.ok [])
      [("", Except.error (Main.GoErr.netTimeout "t")),
       ("", Except.ok ⟨[], ""⟩)] :=
  collector_cursor_discipline
    [Except.error (Main.GoErr.netTimeout "t"), Except.ok ⟨[], ""⟩] 0 0
    (Main.CollectOutcome.ok [])
    [("", Except.error (Main.GoErr.netTimeout "t")), ("", Except.ok ⟨[], ""⟩)]
    rfl

/-- C7: an item whose ID resolves to the empty string (and that passes the
age filter) makes the collector panic: the whole collection aborts with no
result list, and the fetch that returned it is the last fetch of the run. -/
theorem collector_empty_id_aborts
    (script : List (Except Main.GoErr Main.Page)) (now days : Int)
    (out : Main.CollectOutcome) (fs : List Main.Fetch)
    (m : Nat) (c : String) (page : Main.Page)
    (h : Main.CollectLikedTweetsID script now days = some (out, fs))
    (hm : fs[m]? = some (c, Except.ok page))
    (hbad : ∃ t ∈ page.data, t.createdAt ≤ Main.cutoff now days ∧ t.id = "") :
    out = Main.CollectOutcome.panicEmptyID ∧ m + 1 = fs.length :=
  Main.collectLoop_panic h hm hbad

/-- Witness for C7: a page whose only tweet is old enough to be eligible
but carries an empty ID aborts the run even though its continuation token
promises a further page. -/
theorem collector_empty_id_aborts_witness :
    Main.CollectOutcome.panicEmptyID = Main.CollectOutcome.panicEmptyID ∧
      0 + 1 = 1 :=
  collector_empty_id_aborts
    [Except.ok ⟨[⟨0, ""⟩], "next"⟩, Except.ok ⟨[], ""⟩] 50 0
    Main.CollectOutcome.panicEmptyID
    [("", Except.ok ⟨[⟨0, ""⟩], "next"⟩)] 0 "" ⟨[⟨0, ""⟩], "next"⟩
    rfl rfl ⟨⟨0, ""⟩, by simp, by decide, rfl⟩

/-- C3: when collection completes normally, the returned list contains
exactly the items of the consumed pages whose creation time is at or
before the cutoff instant now minus days (equality eligible, strictly
later excluded), appended in page order then intra-page listing order. -/
theorem collector_includes_exactly_cutoff_eligible
    (script : List (Except Main.GoErr Main.Page)) (now days : Int)
    (ids : List String) (fs : List Main.Fetch)
    (h : Main.CollectLikedTweetsID script now days =
      some (Main.CollectOutcome.ok ids, fs)) :
    ∃ pages, Main.consumedPages script = some pages ∧
      ids = Main.includedIDs pages (Main.cutoff now days) :=
  Main.collectLoop_ok h

/-- Witness for C3: one page holding a tweet at the cutoff (included) and a
tweet strictly after it (excluded). -/
theorem collector_includes_exactly_cutoff_eligible_witness :
    ∃ pages,
      Main.consumedPages
        [Except.ok ⟨[⟨50, "a"⟩, ⟨100, "b"⟩], ""⟩] = some pages ∧
      ["a"] = Main.includedIDs pages (Main.cutoff 50 0) :=
  collector_includes_exactly_cutoff_eligible
    [Except.ok ⟨[⟨50, "a"⟩, ⟨100, "b"⟩], ""⟩] 50 0 ["a"]
    [("", Except.ok ⟨[⟨50, "a"⟩, ⟨100, "b"⟩], ""⟩)] rfl

/-- C9: for every configured days value below zero, the effective threshold
resolves to the default of 30 days. -/
theorem negative_days_fall_back_to_default (d : Int) (h : d < 0) :
    Main.normalizeDays d = 30 := by
  simp [Main.normalizeDays, Main.DefaultDays, if_pos h]

/-- Witness for C9 at the concrete input -5. -/
theorem negative_days_fall_back_to_default_witness :
    Main.normalizeDays (-5) = 30 :=
  negative_days_fall_back_to_default (-5) (by decide)

/-- C10: with the -V flag set, getOpts prints the version and exits 0
whatever the credential environment variables hold (even both empty), so
the usage-error exit (code 2) is never reached on a -V invocation. -/
theorem version_flag_exits_before_credential_check
    (u : String) (d : Int) (t : Main.Duration) (tok sec : String) :
    Main.getOpts ⟨true, u, d, t, tok, sec⟩ =
      Main.GetOptsResult.exited Main.ExitSuccess [Main.Version] ∧
    Main.ExitSuccess ≠ Main.ExitUsage :=
  ⟨rfl, by decide⟩

/-- C1 counterexample: with a configured timeout of 60 seconds, a
network-level timeout error does not make trySleepOnError sleep for that
configured duration (it sleeps the fixed 30-second default instead). -/
theorem timeout_sleep_is_not_configured_timeout :
    ¬ ((Main.trySleepOnError (Main.GoErr.netTimeout "read timeout")).2 =
        some (60 * Main.nsSecond)) := by
  decide

/-- C1 (amended): for every error classified as a network-level timeout,
trySleepOnError sleeps for the fixed DefaultTimeout of 30 seconds —
regardless of the configured -t value — and signals retry. -/
theorem timeout_sleeps_fixed_default (msg : String) :
    Main.trySleepOnError (Main.GoErr.netTimeout msg) =
      (true, some Main.DefaultTimeout) :=
  rfl

/-- C2 counterexample: on a successful delete-like response reporting
liked = true, Unlike does not return the liked field itself (it returns
its negation). -/
theorem unlike_does_not_return_liked_field :
    ¬ (Main.Unlike (Except.ok ⟨true⟩) = Except.ok true) := by
  simp [Main.Unlike]

/-- C2 (amended): on a non-error response Unlike returns the negation of
the liked field reported by the service (true means the unlike took
effect), and the caller classifies a response with liked still true as a
logged soft failure, distinct from the retried/fatal classifications used
for transport errors. -/
theorem unlike_returns_negation_of_liked :
    (∀ r : Main.LikedResp,
      Main.Unlike (Except.ok r) = Except.ok (!r.liked)) ∧
    (∀ (i : Nat) (s : String) (r : Main.LikedResp),
      (Main.Call.mk i s (Main.Unlike (Except.ok r))).kind =
        if r.liked then Main.CallKind.softLogged else Main.CallKind.success) ∧
    (∀ (i : Nat) (s : String) (e : Main.GoErr),
      (Main.Call.mk i s (Main.Unlike (Except.error e))).kind =
        if (Main.trySleepOnError e).1 then Main.CallKind.retried
        else Main.CallKind.fatalLogged) := by
  refine ⟨fun r => rfl, fun i s r => ?_, fun i s e => rfl⟩
  obtain ⟨b⟩ := r
  cases b <;> rfl

/-- C4: a finished DeleteLikes run calls the IDs in exactly the input
order: each call names the ID at its index, the first call is at index 0,
a transient error repeats the same index while anything else advances by
one, and every index receives a settling (non-retried) call — neither a
per-item fatal error nor a soft failure halts or reorders the remainder. -/
theorem deleter_processes_in_input_order
    (ids : List String) (script : List (Except Main.GoErr Main.LikedResp))
    (out : Main.DelOut) (h : Main.DeleteLikes ids script = some out) :
    Main.DeleterOrderSpec ids out := by
  obtain ⟨hchain, hhead⟩ := Main.deleteLoop_chain h
  exact ⟨fun c hc => (Main.deleteLoop_calls h c hc).2,
    hhead, hchain, fun k hk => Main.deleteLoop_covers h k (Nat.zero_le k) hk⟩

/-- Witness for C4: a timeout on the first ID is retried at the same
index, then a success advances, and a fatal error on the second ID is
absorbed without halting the run. -/
theorem deleter_processes_in_input_order_witness :
    Main.DeleterOrderSpec ["x", "y"]
      ⟨[Main.Call.mk 0 "x" (Except.error (Main.GoErr.netTimeout "t")),
        Main.Call.mk 0 "x" (Except.ok true),
        Main.Call.mk 1 "y" (Except.error (Main.GoErr.other "boom"))],
       [], none⟩ :=
  deleter_processes_in_input_order ["x", "y"]
    [Except.error (Main.GoErr.netTimeout "t"),
     Except.ok ⟨false⟩,
     Except.error (Main.GoErr.other "boom")]
    ⟨[Main.Call.mk 0 "x" (Except.error (Main.GoErr.netTimeout "t")),
      Main.Call.mk 0 "x" (Except.ok true),
      Main.Call.mk 1 "y" (Except.error (Main.GoErr.other "boom"))],
     [], none⟩
    rfl

/-- C5: whatever the per-item outcomes, a finished DeleteLikes run returns
the nil error to its caller — per-item fatal failures are never escalated
to an overall error. -/
theorem deleter_always_returns_nil
    (ids : List String) (script : List (Except Main.GoErr Main.LikedResp))
    (out : Main.DelOut) (h : Main.DeleteLikes ids script = some out) :
    out.retErr = none :=
  Main.deleteLoop_retErr h

/-- Witness for C5: a run over one ID with a per-item fatal error still
returns nil. -/
theorem deleter_always_returns_nil_witness :
    Main.DelOut.retErr
      ⟨[Main.Call.mk 0 "x" (Except.error (Main.GoErr.other "boom"))],
       [], none⟩ = none :=
  deleter_always_returns_nil ["x"]
    [Except.error (Main.GoErr.other "boom")]
    ⟨[Main.Call.mk 0 "x" (Except.error (Main.GoErr.other "boom"))],
     [], none⟩
    rfl

/-- C8: a finished DeleteLikes run logs progress exactly at the 1-based
indices that are multiples of 100; each line reports the total item count
and a success counter equal to the number of calls so far that succeeded
with the liked flag cleared. -/
theorem deleter_progress_every_100
    (ids : List String) (script : List (Except Main.GoErr Main.LikedResp))
    (out : Main.DelOut) (h : Main.DeleteLikes ids script = some out) :
    Main.DeleterProgressSpec ids out := by
  obtain ⟨hmap, hsucc⟩ := Main.deleteLoop_progress h
  refine ⟨?_, fun p hp => ?_⟩
  · simpa [Main.multiplesOf100] using hmap
  · obtain ⟨h1, h2⟩ := hsucc p hp
    exact ⟨h1, by simpa using h2⟩

set_option maxRecDepth 4000 in
/-- Witness for C8: one hundred successful deletes produce exactly one
progress line, at index 100, reporting 100 successes out of 100. -/
theorem deleter_progress_every_100_witness :
    Main.DeleterProgressSpec (List.replicate 100 "x")
      ⟨(List.range 100).map (fun k => Main.Call.mk k "x" (Except.ok true)),
       [⟨100, 100, 100⟩], none⟩ :=
  deleter_progress_every_100 (List.replicate 100 "x")
    (List.replicate 100 (Except.ok ⟨false⟩))
    ⟨(List.range 100).map (fun k => Main.Call.mk k "x" (Except.ok true)),
     [⟨100, 100, 100⟩], none⟩
    rfl
